import Mathlib

/-!
Verification of libsctui (src/sctui.h) against its natural-language
specification.

The C code is shallowly embedded.  The draw buffer is modelled by the list of
bytes it currently holds (`data`, so `data.length` is `buf_used`) together
with the bytes already written to the output stream (`out`);
`sctui_prepare_text` is modelled as a transformer of a total memory map
`Int → Char`, so that out-of-bounds writes are observable; C `int` values are
embedded as `Int`, with the implicit `int`-to-`size_t` and `int`-to-`%u`
conversions made explicit.
-/

set_option maxRecDepth 8000

/-- The glibc value of `BUFSIZ` from `stdio.h`; `sctui_init` allocates the
draw buffer with `_sctui_ecalloc(BUFSIZ, sizeof(char))` and sets
`buf_size = BUFSIZ` (src/sctui.h:228-229). -/
def BUFSIZ : Nat := 8192

/-- Draw-buffer half of `struct sctui` (src/sctui.h:52-53) plus the bytes the
library has written so far with `write(STDOUT_FILENO, buf, buf_used)`:
`cap` is `buf_size`, `data` is the held byte sequence `buf[0 .. buf_used)`
(its length is `buf_used`), and `out` records the output stream. -/
structure DrawState where
  cap : Nat
  data : List Char
  out : List Char
deriving DecidableEq

/-- Model of `sctui_commit` (src/sctui.h:158-163): write the `buf_used` held
bytes to the output stream in one operation, then set `buf_used = 0`. -/
def sctui_commit (st : DrawState) : DrawState :=
  { st with out := st.out ++ st.data, data := [] }

/-- Model of `_sctui_buf_append` (src/sctui.h:118-127) at the level of held
bytes: if `buf_used + siz > buf_size`, `sctui_commit` first; then `stpcpy`
copies `text` at position `buf_used` and `buf_used` advances by `siz`.
(The terminating NUL byte written by `stpcpy` is not among the held bytes;
its write index is modelled by `appendStart`/`appendTermIdx` below.) -/
def _sctui_buf_append (st : DrawState) (text : List Char) : DrawState :=
  let siz := text.length
  let st1 := if st.data.length + siz > st.cap then sctui_commit st else st
  { st1 with data := st1.data ++ text }

/-- Index at which the `stpcpy(&sctui->buf[sctui->buf_used], text)` call of
`_sctui_buf_append` starts writing (src/sctui.h:123-125): `buf_used` has been
reset to `0` by the commit exactly when `buf_used + siz > buf_size`. -/
def appendStart (used siz cap : Nat) : Nat :=
  if used + siz > cap then 0 else used

/-- Index of the terminating NUL byte written by the `stpcpy` call of
`_sctui_buf_append` (src/sctui.h:125): `stpcpy` writes the `siz` payload
bytes at indices `appendStart .. appendStart + siz` (exclusive) and then the
NUL terminator at index `appendStart + siz`. -/
def appendTermIdx (used siz cap : Nat) : Nat :=
  appendStart used siz cap + siz

/-- A left-to-right sequence of `_sctui_buf_append` calls. -/
def appendAll (st : DrawState) (texts : List (List Char)) : DrawState :=
  texts.foldl _sctui_buf_append st

/-- C `%u` conversion of an `int` argument, as used by
`sprintf(b, "\x1b[%u;%uH", y, x)` (src/sctui.h:171): the value is
reinterpreted as a 32-bit unsigned integer. -/
def u32 (n : Int) : Nat := (n % (2 : Int) ^ 32).toNat

/-- The bytes produced by `sprintf(b, "\x1b[%u;%uH", y, x)` in `sctui_cursor`
(src/sctui.h:171): ESC, a bracket, the row `y` in decimal, a semicolon, the
column `x` in decimal, then the letter H. -/
def escCursor (x y : Int) : List Char :=
  '\x1b' :: '[' :: ((Nat.repr (u32 y)).toList ++ ';' :: (Nat.repr (u32 x)).toList ++ ['H'])

/-- Model of `struct sctui` (src/sctui.h:48-54): captured original termios
settings (an opaque token), the recorded cursor position, the window size,
and the draw buffer.  The derived raw-mode termios `cur` is not modelled; no
claim depends on its contents. -/
structure Sctui where
  orig : Nat
  cursor_x : Int
  cursor_y : Int
  w : Nat
  h : Nat
  buf : DrawState
deriving DecidableEq

/-- Model of `sctui_cursor` (src/sctui.h:165-175): return unchanged when the
requested position equals the recorded one, otherwise append the cursor
escape sequence to the draw buffer and record the new position. -/
def sctui_cursor (st : Sctui) (x y : Int) : Sctui :=
  if st.cursor_x = x ∧ st.cursor_y = y then st
  else { st with buf := _sctui_buf_append st.buf (escCursor x y),
                 cursor_x := x, cursor_y := y }

/-- The `struct winsize` fields filled by the `TIOCGWINSZ` ioctl
(src/sctui.h:188). -/
structure Winsize where
  ws_row : Nat
  ws_col : Nat
deriving DecidableEq

/-- Outcome of `sctui_get_win`: either the stored `(w, h)` pair, or a fatal
process exit via `_sctui_die`; the Boolean records that `sctui_fini` ran
(restoring the terminal) before the exit. -/
inductive WinResult where
  | ok : Nat → Nat → WinResult
  | died : Bool → WinResult
deriving DecidableEq

/-- Model of `sctui_get_win` (src/sctui.h:185-195).  The argument is the
ioctl outcome: `none` when `ioctl(STDOUT_FILENO, TIOCGWINSZ, &ws)` returns
`-1`, otherwise the reported `winsize`.  The code dies (after `sctui_fini`)
when the ioctl failed or `ws.ws_col == 0`; otherwise it stores
`ws.ws_col ? ws.ws_col : 80` and `ws.ws_row ? ws.ws_row : 24`. -/
def sctui_get_win (win : Option Winsize) : WinResult :=
  match win with
  | none => WinResult.died true
  | some ws =>
      if ws.ws_col = 0 then WinResult.died true
      else WinResult.ok (if ws.ws_col ≠ 0 then ws.ws_col else 80)
                        (if ws.ws_row ≠ 0 then ws.ws_row else 24)

/-- Environment consumed by `sctui_init`: the current terminal attributes
captured by `tcgetattr` (opaque token), the window-size ioctl outcome, and
whether the `calloc` of the draw buffer succeeds. -/
structure InitEnv where
  termios : Nat
  win : Option Winsize
  allocOk : Bool

/-- Model of `sctui_init` (src/sctui.h:209-232).  The first component of the
result is the process-wide `global_sctui` guard afterwards (for the fatal
branches the process has exited, so the guard value is irrelevant and `none`
is returned); the second is the outcome: `Except.error` models a fatal
`_sctui_die` exit.  When `global_sctui` is already set the code dies at once,
before writing to any state.  On success the session records the captured
attributes, window size from `sctui_get_win`, cursor position `(1, 1)`, and
a fresh empty draw buffer of capacity `BUFSIZ`. -/
def sctui_init (global : Option Sctui) (env : InitEnv) :
    Option Sctui × Except String Sctui :=
  match global with
  | some g => (some g, Except.error "[sctui]: initialized")
  | none =>
      match sctui_get_win env.win with
      | WinResult.died _ => (none, Except.error "[sctui]: failed to get winsize")
      | WinResult.ok w h =>
          if env.allocOk then
            let s : Sctui :=
              { orig := env.termios, cursor_x := 1, cursor_y := 1, w := w, h := h,
                buf := { cap := BUFSIZ, data := [], out := [] } }
            (some s, Except.ok s)
          else (none, Except.error "failed to calloc")

/-- Model of `sctui_grab_key` (src/sctui.h:197-201) at byte level: the key
buffer is the byte array underlying `int keybuf[3]`;
`read(STDIN_FILENO, keybuf, 1)` stores the arriving byte at the first
position when one arrives within the raw-mode timeout (`VMIN = 0`,
`VTIME = 1` set at src/sctui.h:222-223), and stores nothing when the timeout
elapses (`read` returns `0`).  The return value of `read` is discarded by the
C code, so the buffer is the only observable result. -/
def sctui_grab_key (input : Option Char) (keybuf : List Char) : List Char :=
  match input with
  | some c =>
      match keybuf with
      | [] => []
      | _ :: rest => c :: rest
  | none => keybuf

/-- The `len` computed by `sctui_prepare_text` (src/sctui.h:241-243):
`len = w - offset; if (len > tlen) len = tlen;`. -/
def _prep_len (w offset tlen : Int) : Int :=
  if w - offset > tlen then tlen else w - offset

/-- The initialization `int tlen = strlen(text)` (src/sctui.h:239): `strlen`
returns a `size_t`, which the assignment truncates to a 32-bit signed `int`.
On the common LP64 compilers this conversion wraps modulo `2 ^ 32` into the
signed range, going negative from `2 ^ 31` upward. -/
def int_of_size_t (n : Nat) : Int :=
  if n % 2 ^ 32 < 2 ^ 31 then ((n % 2 ^ 32 : Nat) : Int)
  else ((n % 2 ^ 32 : Nat) : Int) - 2 ^ 32

/-- Conversion of a C `int` to `size_t` (the third argument of `strncpy`, on
an LP64 platform): reduction modulo `2 ^ 64`. -/
def size_t_cast (n : Int) : Nat := (n % (2 : Int) ^ 64).toNat

/-- Model of `strncpy(&buf[dest], src, n)` on a memory map: positions
`dest .. dest + n` (exclusive) receive the source bytes, NUL-padded past the
end of the source; all other positions are untouched. -/
def strncpyMem (mem : Int → Char) (dest : Int) (src : List Char) (n : Nat) :
    Int → Char :=
  fun i =>
    if dest ≤ i ∧ i < dest + (n : Int) then src.getD (i - dest).toNat '\x00'
    else mem i

/-- First loop of `sctui_prepare_text` (src/sctui.h:245-246): spaces at
positions `0 .. offset` (exclusive). -/
def _prep_spaces (offset : Int) (m : Int → Char) : Int → Char :=
  fun i => if 0 ≤ i ∧ i < offset then ' ' else m i

/-- Second loop of `sctui_prepare_text` (src/sctui.h:247-251): for
`offset ≤ i < w`, keep `buf[i]` when `i < offset + len` and
`buf[i] != '\n'`, otherwise write a space. -/
def _prep_fill (offset w len : Int) (m : Int → Char) : Int → Char :=
  fun i =>
    if offset ≤ i ∧ i < w then
      (if i < offset + len ∧ m i ≠ '\n' then m i else ' ')
    else m i

/-- Model of `sctui_prepare_text` (src/sctui.h:234-253) as a transformer of
the memory map holding the destination buffer (map index `k` is `buf[k]`).
The text is a C string, embedded as the list of its bytes before the NUL
terminator; its `tlen` is `int_of_size_t text.length`, reflecting the
`size_t`-to-`int` truncation at src/sctui.h:239 (the `strncpy` source
itself is NUL-terminated at the true length, so the copy model in
`strncpyMem` pads from the true length regardless of `tlen`).  The final
`buf[i] = '\0'` (src/sctui.h:252) happens at the exit value of the loop
counter, which is `w` when `offset < w` and `offset` otherwise. -/
def sctui_prepare_text (mem : Int → Char) (offset w : Int) (text : List Char) :
    Int → Char :=
  fun i =>
    if i = (if offset < w then w else offset) then '\x00'
    else
      _prep_fill offset w (_prep_len w offset (int_of_size_t text.length))
        (_prep_spaces offset
          (strncpyMem mem offset text
            (size_t_cast (_prep_len w offset (int_of_size_t text.length))))) i

/-- A memory map with a recognizable non-NUL resident byte, used to observe
which positions `sctui_prepare_text` writes. -/
def memZ : Int → Char := fun _ => 'Z'

/-- A session state whose recorded cursor position is `(5, 5)`. -/
def stA : Sctui :=
  { orig := 0, cursor_x := 5, cursor_y := 5, w := 80, h := 24,
    buf := { cap := BUFSIZ, data := [], out := [] } }

/-- A session state whose recorded cursor position is `(1, 1)`. -/
def stB : Sctui :=
  { orig := 0, cursor_x := 1, cursor_y := 1, w := 80, h := 24,
    buf := { cap := BUFSIZ, data := [], out := [] } }

/-- A concrete environment under which `sctui_init` succeeds with an 80 by 24
window. -/
def initEnv0 : InitEnv :=
  { termios := 0, win := some { ws_row := 24, ws_col := 80 }, allocOk := true }

/-- The session produced by a successful `sctui_init` under `initEnv0`. -/
def sessionAfterInit : Sctui :=
  match (sctui_init none initEnv0).2 with
  | Except.ok s => s
  | Except.error _ =>
      { orig := 0, cursor_x := 0, cursor_y := 0, w := 0, h := 0,
        buf := { cap := 0, data := [], out := [] } }

/-- The state after the call sequence `sctui_cursor (5,5)`, `(5,5)`, `(6,5)`
starting from `sessionAfterInit`. -/
def c9run : Sctui :=
  sctui_cursor (sctui_cursor (sctui_cursor sessionAfterInit 5 5) 5 5) 6 5

/-- Helper: one `_sctui_buf_append` preserves the concatenation of the bytes
already written and the bytes still held, extending it by the new text. -/
theorem buf_append_out_data (st : DrawState) (t : List Char) :
    (_sctui_buf_append st t).out ++ (_sctui_buf_append st t).data =
      st.out ++ st.data ++ t := by
  unfold _sctui_buf_append sctui_commit
  by_cases h : st.data.length + t.length > st.cap
  · simp [h]
  · simp [h, List.append_assoc]

/-- Helper: over a whole sequence of appends, written-plus-held bytes equal
the initial written-plus-held bytes followed by the concatenated texts. -/
theorem appendAll_out_data (texts : List (List Char)) (st : DrawState) :
    (appendAll st texts).out ++ (appendAll st texts).data =
      st.out ++ st.data ++ texts.flatten := by
  induction texts generalizing st with
  | nil => simp [appendAll]
  | cons t ts ih =>
      have hstep := buf_append_out_data st t
      have := ih (_sctui_buf_append st t)
      simp only [appendAll, List.foldl_cons] at this ⊢
      rw [this, hstep]
      simp [List.append_assoc]

/-- Claim C1: for the draw buffer, the number of bytes held never exceeds the
capacity, and an append of a text of length at most the capacity first
performs a full commit exactly when `used_length + len(text) > capacity`, in
which case the flushed bytes are precisely the previously held bytes and the
buffer afterwards holds exactly the new text copied at the new used length
`0`; otherwise nothing is flushed and the text is appended whole after the
held bytes.  Flushed content therefore never mixes truncated pre- and
post-overflow bytes. -/
theorem sctui_c1 (st : DrawState) (text : List Char)
    (hlen : text.length ≤ st.cap) (hused : st.data.length ≤ st.cap) :
    (_sctui_buf_append st text).data.length ≤ st.cap ∧
    (st.data.length + text.length > st.cap →
      (_sctui_buf_append st text).out = st.out ++ st.data ∧
      (_sctui_buf_append st text).data = text) ∧
    (st.data.length + text.length ≤ st.cap →
      (_sctui_buf_append st text).out = st.out ∧
      (_sctui_buf_append st text).data = st.data ++ text) := by
  have hx : _sctui_buf_append st text =
      if st.data.length + text.length > st.cap
      then { cap := st.cap, data := text, out := st.out ++ st.data }
      else { cap := st.cap, data := st.data ++ text, out := st.out } := by
    unfold _sctui_buf_append sctui_commit
    by_cases h : st.data.length + text.length > st.cap <;> simp [h]
  by_cases h : st.data.length + text.length > st.cap
  · rw [hx, if_pos h]
    exact ⟨by simpa using hlen, fun _ => ⟨rfl, rfl⟩, fun h2 => by omega⟩
  · rw [hx, if_neg h]
    exact ⟨by simp; omega, fun h2 => by omega, fun _ => ⟨rfl, rfl⟩⟩

/-- Witness for C1 at a concrete overflowing append: capacity 4, three held
bytes, two appended bytes. -/
theorem sctui_c1_witness :
    (_sctui_buf_append { cap := 4, data := ['a', 'b', 'c'], out := [] } ['x', 'y']).out
        = ['a', 'b', 'c'] ∧
    (_sctui_buf_append { cap := 4, data := ['a', 'b', 'c'], out := [] } ['x', 'y']).data
        = ['x', 'y'] := by
  have h := sctui_c1 { cap := 4, data := ['a', 'b', 'c'], out := [] } ['x', 'y']
    (by decide) (by decide)
  exact h.2.1 (by decide)

/-- Claim C4: `sctui_commit` writes exactly the held bytes to the output
stream and resets the used length to zero; consequently any sequence of
appends (each passing the `siz <= BUFSIZ` assertion) followed by a commit
writes in total exactly the previously pending bytes followed by the
concatenation of the appended texts, leaving the buffer empty. -/
theorem sctui_c4 (st : DrawState) (texts : List (List Char))
    (hassert : ∀ t ∈ texts, t.length ≤ st.cap) :
    (sctui_commit st).out = st.out ++ st.data ∧
    (sctui_commit st).data = [] ∧
    (sctui_commit (appendAll st texts)).out = st.out ++ st.data ++ texts.flatten ∧
    (sctui_commit (appendAll st texts)).data = [] := by
  refine ⟨rfl, rfl, ?_, rfl⟩
  show (appendAll st texts).out ++ (appendAll st texts).data = _
  exact appendAll_out_data texts st

/-- Witness for C4: appending "a" then "bc" to an empty buffer of capacity 4
and committing writes exactly "abc" and empties the buffer. -/
theorem sctui_c4_witness :
    (sctui_commit (appendAll { cap := 4, data := [], out := [] } [['a'], ['b', 'c']])).out
        = ['a', 'b', 'c'] ∧
    (sctui_commit (appendAll { cap := 4, data := [], out := [] } [['a'], ['b', 'c']])).data
        = [] := by
  have h := sctui_c4 { cap := 4, data := [], out := [] } [['a'], ['b', 'c']]
    (by decide)
  exact ⟨h.2.2.1, h.2.2.2⟩

/-- Claim C10 (code bug): the claim states that every byte stored by
`_sctui_buf_append` — including the NUL terminator `stpcpy` writes at index
`used_length + len(text)` — lies strictly below the capacity, in particular
when `used_length + len(text)` equals the capacity exactly.  The code
violates this: at `used_length = 8190`, `len(text) = 2`, capacity
`BUFSIZ = 8192`, no flush is triggered (the condition is strict `>`), the
payload start index stays `8190`, and the terminator is written at index
`8192 = BUFSIZ`, one byte past the end of the `calloc(BUFSIZ, 1)` buffer. -/
theorem sctui_c10_oob_terminator :
    appendStart 8190 2 BUFSIZ = 8190 ∧
    appendTermIdx 8190 2 BUFSIZ = BUFSIZ ∧
    ¬ appendTermIdx 8190 2 BUFSIZ < BUFSIZ := by decide

/-- Claim C3: `sctui_cursor` is a no-op when `(x, y)` equals the recorded
cursor position; otherwise it appends to the draw buffer exactly the escape
sequence ESC `[` y `;` x `H` (row first, then column) and records `(x, y)`;
hence a second call with identical coordinates appends nothing. -/
theorem sctui_c3 (st : Sctui) (x y : Int) :
    ((st.cursor_x = x ∧ st.cursor_y = y) → sctui_cursor st x y = st) ∧
    (¬ (st.cursor_x = x ∧ st.cursor_y = y) →
        (sctui_cursor st x y).buf = _sctui_buf_append st.buf (escCursor x y) ∧
        (sctui_cursor st x y).cursor_x = x ∧
        (sctui_cursor st x y).cursor_y = y) ∧
    sctui_cursor (sctui_cursor st x y) x y = sctui_cursor st x y := by
  by_cases h : st.cursor_x = x ∧ st.cursor_y = y
  · refine ⟨fun _ => by simp [sctui_cursor, h], fun hn => absurd h hn, ?_⟩
    simp [sctui_cursor, h]
  · refine ⟨fun he => absurd he h, fun _ => ?_, ?_⟩
    · simp [sctui_cursor, h]
    · simp [sctui_cursor, h]

/-- Witness for C3: from a state recorded at `(5, 5)` the call `(5, 5)` is a
no-op, while from a state recorded at `(1, 1)` the call `(5, 5)` appends the
escape sequence and records the position. -/
theorem sctui_c3_witness :
    sctui_cursor stA 5 5 = stA ∧
    (sctui_cursor stB 5 5).buf = _sctui_buf_append stB.buf (escCursor 5 5) ∧
    (sctui_cursor stB 5 5).cursor_x = 5 := by
  refine ⟨(sctui_c3 stA 5 5).1 (by decide), ?_, ?_⟩
  · exact ((sctui_c3 stB 5 5).2.1 (by decide)).1
  · exact ((sctui_c3 stB 5 5).2.1 (by decide)).2.1

/-- Counterexample to claim C9: starting from the state after a successful
`sctui_init` (cursor recorded at `(1, 1)`), the call sequence `(5, 5)`,
`(5, 5)`, `(6, 5)` does NOT leave only the escape sequence for `(6, 5)` in
the draw buffer: the first call already appended the sequence for `(5, 5)`. -/
theorem sctui_c9_counterexample : c9run.buf.data ≠ escCursor 6 5 := by decide

/-- Claim C9 as amended: starting from the state after `sctui_init`, the
sequence `(5, 5)`, `(5, 5)`, `(6, 5)` appends exactly two escape sequences —
the one for `(5, 5)` followed by the one for `(6, 5)` — and the repeated
`(5, 5)` call appends nothing (it is a no-op). -/
theorem sctui_c9_amended :
    c9run.buf.data = escCursor 5 5 ++ escCursor 6 5 ∧
    sctui_cursor (sctui_cursor sessionAfterInit 5 5) 5 5 =
      sctui_cursor sessionAfterInit 5 5 := by decide

/-- Claim C8: a second `sctui_init` while a session is already recorded in
the process-wide guard dies fatally with the "initialized" message, before
touching any state: the guard still holds the original session unchanged. -/
theorem sctui_c8 (g : Sctui) (env : InitEnv) :
    sctui_init (some g) env = (some g, Except.error "[sctui]: initialized") := rfl

/-- Counterexample to claim C6: for a successful window-size query reporting
zero columns the code does NOT fall back to 80 columns — it finalizes the
session and dies, because `ws.ws_col == 0` is part of the failure test. -/
theorem sctui_c6_counterexample :
    sctui_get_win (some { ws_row := 24, ws_col := 0 }) = WinResult.died true ∧
    WinResult.died true ≠ WinResult.ok 80 24 := by decide

/-- Claim C6 as amended: `sctui_get_win` finalizes the session (restoring the
terminal) and dies fatally when the query fails or reports zero columns, so
the 80-column fallback branch is unreachable; when the query succeeds with a
nonzero column count, the stored width is exactly the reported column count
and the height falls back to 24 only when the reported row count is zero. -/
theorem sctui_c6_amended :
    sctui_get_win none = WinResult.died true ∧
    (∀ ws : Winsize, ws.ws_col = 0 →
        sctui_get_win (some ws) = WinResult.died true) ∧
    (∀ ws : Winsize, ws.ws_col ≠ 0 →
        sctui_get_win (some ws) =
          WinResult.ok ws.ws_col (if ws.ws_row = 0 then 24 else ws.ws_row)) := by
  refine ⟨rfl, fun ws h => by simp [sctui_get_win, h], fun ws h => ?_⟩
  simp only [sctui_get_win, if_neg h, if_pos h]
  by_cases hr : ws.ws_row = 0 <;> simp [hr]

/-- Witness for the amended C6: a query reporting zero columns dies after
finalizing; a query reporting 80 columns and zero rows yields 80 by 24. -/
theorem sctui_c6_witness :
    sctui_get_win (some { ws_row := 10, ws_col := 0 }) = WinResult.died true ∧
    sctui_get_win (some { ws_row := 0, ws_col := 80 }) = WinResult.ok 80 24 := by
  exact ⟨sctui_c6_amended.2.1 { ws_row := 10, ws_col := 0 } (by decide),
         sctui_c6_amended.2.2 { ws_row := 0, ws_col := 80 } (by decide)⟩

/-- Claim C5 (code bug): the claim states `sctui_grab_key` yields the byte
read when one arrives within the timeout and otherwise yields "no byte",
never a stale byte from an earlier call.  The code discards the return value
of `read`, so after a timeout the key buffer still holds whatever it held
before — here the byte 97 stored by an earlier call — indistinguishable from
a fresh read of 97, and no "no byte" result exists. -/
theorem sctui_c5_stale :
    sctui_grab_key none ['a', '\x00', '\x00'] = ['a', '\x00', '\x00'] ∧
    sctui_grab_key (some 'a') ['a', '\x00', '\x00'] = ['a', '\x00', '\x00'] ∧
    sctui_grab_key (some 'b') ['a', '\x00', '\x00'] = ['b', '\x00', '\x00'] := by
  decide

/-- Helper: the `int`-to-`size_t` conversion is the identity on values in
`[0, 2 ^ 64)`. -/
theorem size_t_cast_int (n : Int) (h0 : 0 ≤ n) (h1 : n < (2 : Int) ^ 64) :
    ((size_t_cast n : Nat) : Int) = n := by
  unfold size_t_cast
  rw [Int.toNat_of_nonneg (Int.emod_nonneg n (by norm_num))]
  exact Int.emod_eq_of_lt h0 h1

/-- Helper: the `len` of `sctui_prepare_text` is the minimum of the text
length and the remaining width. -/
theorem _prep_len_min (w offset tlen : Int) :
    _prep_len w offset tlen = min tlen (w - offset) := by
  unfold _prep_len
  rw [min_def]
  split_ifs <;> omega

/-- Helper: the `strlen`-to-`int` truncation is the identity on texts no
longer than `INT_MAX = 2 ^ 31 - 1`. -/
theorem int_of_size_t_eq (n : Nat) (h : (n : Int) ≤ 2 ^ 31 - 1) :
    int_of_size_t n = (n : Int) := by
  have hn : n < 2 ^ 31 := by omega
  unfold int_of_size_t
  rw [Nat.mod_eq_of_lt (by omega : n < 2 ^ 32), if_pos hn]

/-- Helper: pointwise value of `sctui_prepare_text` at positions inside the
line, for `0 ≤ offset ≤ w` and a text no longer than `INT_MAX` (so that the
C `int tlen` holds the exact length). -/
theorem prepare_text_eval (mem : Int → Char) (offset w : Int) (text : List Char)
    (h0 : 0 ≤ offset) (h1 : offset ≤ w)
    (h2 : (text.length : Int) ≤ 2 ^ 31 - 1)
    (i : Int) (hi0 : 0 ≤ i) (hiw : i < w) :
    sctui_prepare_text mem offset w text i =
      (if i < offset then ' '
       else if i < offset + min (text.length : Int) (w - offset) then
         (if text.getD (i - offset).toNat '\x00' = '\n' then ' '
          else text.getD (i - offset).toNat '\x00')
       else ' ') := by
  have hT : int_of_size_t text.length = (text.length : Int) :=
    int_of_size_t_eq text.length h2
  have hL : _prep_len w offset (int_of_size_t text.length)
      = min (text.length : Int) (w - offset) := by
    rw [hT]; exact _prep_len_min w offset _
  have hL0 : 0 ≤ min (text.length : Int) (w - offset) :=
    le_min (Int.natCast_nonneg _) (by omega)
  have hLt : min (text.length : Int) (w - offset) ≤ (text.length : Int) :=
    min_le_left _ _
  have hLw : min (text.length : Int) (w - offset) ≤ w - offset := min_le_right _ _
  have hcast : ((size_t_cast (min (text.length : Int) (w - offset)) : Nat) : Int)
      = min (text.length : Int) (w - offset) :=
    size_t_cast_int _ hL0 (lt_of_le_of_lt hLt (by norm_num; omega))
  have hIE : ((if offset < w then w else offset) : Int) = w := by
    by_cases hc : offset < w
    · simp [hc]
    · simp [hc]; omega
  simp only [sctui_prepare_text, _prep_fill, _prep_spaces, strncpyMem, hL, hcast, hIE]
  rw [if_neg (by omega : ¬ i = w)]
  by_cases hA : i < offset
  · rw [if_neg (by omega : ¬ (offset ≤ i ∧ i < w)),
        if_pos (⟨hi0, hA⟩ : 0 ≤ i ∧ i < offset), if_pos hA]
  · rw [if_pos (⟨by omega, hiw⟩ : offset ≤ i ∧ i < w), if_neg hA]
    by_cases hB : i < offset + min (text.length : Int) (w - offset)
    · rw [if_neg (by omega : ¬ (0 ≤ i ∧ i < offset)),
          if_pos (⟨by omega, hB⟩ : offset ≤ i ∧ i < offset + min (text.length : Int) (w - offset)),
          if_pos hB]
      by_cases hnl : text.getD (i - offset).toNat '\x00' = '\n'
      · rw [if_neg (fun hcon => hcon.2 hnl), if_pos hnl]
      · rw [if_pos ⟨hB, hnl⟩, if_neg hnl]
    · rw [if_neg (by omega :
            ¬ (i < offset + min (text.length : Int) (w - offset) ∧
               (if 0 ≤ i ∧ i < offset then ' '
                else if offset ≤ i ∧ i < offset + min (text.length : Int) (w - offset) then
                  text.getD (i - offset).toNat '\x00'
                else mem i) ≠ '\n')), if_neg hB]

/-- Counterexample to claim C2: the claim quantifies over all `offset, width,
text`, but at `offset = 2`, `width = 1`, `text = "a"` the code does not
produce a line of exactly `width` characters plus terminator: position
`width = 1`, where the terminator of a width-1 line must sit, holds a space,
and position `3`, beyond the line, has been overwritten with a NUL (the
negative `len = width - offset = -1` becomes the huge `size_t`
`2 ^ 64 - 1` inside `strncpy`). -/
theorem sctui_c2_counterexample :
    sctui_prepare_text memZ 2 1 ['a'] 1 = ' ' ∧
    (' ' : Char) ≠ '\x00' ∧
    sctui_prepare_text memZ 2 1 ['a'] 3 = '\x00' ∧
    memZ 3 = 'Z' ∧ ('\x00' : Char) ≠ 'Z' := by decide

/-- Claim C2 as amended: for `0 ≤ offset ≤ width` and a text no longer than
`INT_MAX = 2 ^ 31 - 1` (so that the C `int tlen = strlen(text)` assignment
at src/sctui.h:239 does not wrap), `sctui_prepare_text` produces a line of
exactly `width` characters plus terminator: positions `[0, offset)` are
spaces, positions `[offset, offset + min(len(text), width - offset))` hold
the corresponding text byte with `'\n'` replaced by a space, the remaining
positions below `width` are spaces, position `width` holds the terminator,
and no embedded newline survives anywhere in the line. -/
theorem sctui_c2_amended (mem : Int → Char) (offset w : Int) (text : List Char)
    (h0 : 0 ≤ offset) (h1 : offset ≤ w)
    (h2 : (text.length : Int) ≤ 2 ^ 31 - 1) :
    (∀ i : Int, 0 ≤ i → i < offset → sctui_prepare_text mem offset w text i = ' ') ∧
    (∀ i : Int, offset ≤ i → i < offset + min (text.length : Int) (w - offset) →
        sctui_prepare_text mem offset w text i =
          (if text.getD (i - offset).toNat '\x00' = '\n' then ' '
           else text.getD (i - offset).toNat '\x00')) ∧
    (∀ i : Int, offset + min (text.length : Int) (w - offset) ≤ i → i < w →
        sctui_prepare_text mem offset w text i = ' ') ∧
    sctui_prepare_text mem offset w text w = '\x00' ∧
    (∀ i : Int, 0 ≤ i → i < w → sctui_prepare_text mem offset w text i ≠ '\n') := by
  have hL0 : 0 ≤ min (text.length : Int) (w - offset) :=
    le_min (Int.natCast_nonneg _) (by omega)
  have hLw : min (text.length : Int) (w - offset) ≤ w - offset := min_le_right _ _
  refine ⟨fun i hi0 hio => ?_, fun i hio hiL => ?_, fun i hiL hiw => ?_, ?_,
    fun i hi0 hiw => ?_⟩
  · rw [prepare_text_eval mem offset w text h0 h1 h2 i hi0 (by omega), if_pos hio]
  · rw [prepare_text_eval mem offset w text h0 h1 h2 i (by omega) (by omega),
        if_neg (by omega : ¬ i < offset), if_pos hiL]
  · rw [prepare_text_eval mem offset w text h0 h1 h2 i (by omega) hiw,
        if_neg (by omega : ¬ i < offset), if_neg (by omega)]
  · have hIE : ((if offset < w then w else offset) : Int) = w := by
      by_cases hc : offset < w
      · simp [hc]
      · simp [hc]; omega
    simp only [sctui_prepare_text, hIE, if_true, eq_self_iff_true]
  · rw [prepare_text_eval mem offset w text h0 h1 h2 i hi0 hiw]
    by_cases hA : i < offset
    · simp [hA]
    · rw [if_neg hA]
      by_cases hB : i < offset + min (text.length : Int) (w - offset)
      · rw [if_pos hB]
        by_cases hnl : text.getD (i - offset).toNat '\x00' = '\n'
        · rw [if_pos hnl]; decide
        · rw [if_neg hnl]; exact hnl
      · simp [hB]

/-- Witness for the amended C2, at the specified example `offset = 2`,
`width = 6`, `text = "hi\nyo"`: position 0 is a space, position 6 holds the
terminator, and the six line characters read "  hi y". -/
theorem sctui_c2_witness :
    sctui_prepare_text memZ 2 6 "hi\nyo".toList 0 = ' ' ∧
    sctui_prepare_text memZ 2 6 "hi\nyo".toList 6 = '\x00' ∧
    (List.range 6).map (fun k => sctui_prepare_text memZ 2 6 "hi\nyo".toList (k : Int)) =
      "  hi y".toList := by
  refine ⟨?_, ?_, by decide⟩
  · exact (sctui_c2_amended memZ 2 6 "hi\nyo".toList (by decide) (by decide)
      (by decide)).1 0 (by decide) (by decide)
  · exact (sctui_c2_amended memZ 2 6 "hi\nyo".toList (by decide) (by decide)
      (by decide)).2.2.2.1

/-- Claim C7 (code bug): the claim states that `width <= 0` or negative
remaining space acts as a no-op or empty result and never accesses memory
outside the destination line.  In the code, at `offset = 3`, `width = 2`,
`text = "a"`, the computed `len = width - offset = -1` is converted to the
`size_t` `2 ^ 64 - 1` by the `strncpy` call, which NUL-pads far beyond the
destination: position 1000000 of memory, far outside the two-character line,
is overwritten with a NUL byte. -/
theorem sctui_c7_oob :
    sctui_prepare_text memZ 3 2 ['a'] 1000000 = '\x00' ∧
    memZ 1000000 = 'Z' ∧ ('\x00' : Char) ≠ 'Z' := by decide
